import Mathlib

/-!
# MovieGo — verification of the composition compiler and frame pipeline

Shallow embedding of the MovieGo video-composition library (Go) and proofs
about it.  Source files referenced throughout: `filter.go`,
`frame_processor.go`, `composite.go`, `concatenate.go`, and the FFmpeg
filter-chain utility file (`linearExpr` and friends).

Modelling conventions:
* Go `float64` times/values are modelled as `ℚ`; `fmt.Sprintf("%.3f", x)`
  rounding is modelled by `round3`.  (Go rounds ties to even; `round3` uses
  Mathlib's `round`.  The two differ only at exact half-thousandths, which
  never arise under the 3-decimal hypotheses used in the theorems.)
* Go `[]byte` frame buffers are modelled as `List ℕ` whose entries are < 256;
  a `uint8(x)` conversion is modelled by `% 256`.  Index reads use `getD`
  with default 0 (Go would panic out of range; theorems carry in-range
  hypotheses).
* Go mutation is modelled by explicit state passing; fallible functions
  return `Except`.
-/

namespace MovieGo

/-! ## FFmpeg expression language (filter-chain utility file)

`linearExpr` in the source builds an FFmpeg expression *string*
`if(lt(T,start),from,if(gte(T,end),to,from+(to-from)*((T-start)/duration)))`
with all numeric literals formatted via `%.3f`.  We embed the expressions
it can build as an AST `FExpr` together with FFmpeg's evaluation semantics
(`lt`/`gte` return 1 or 0, `if(c,x,y)` tests `c` against 0). -/

inductive FExpr : Type
  | timeVar : FExpr
  | const (q : ℚ) : FExpr
  | lt (a b : FExpr) : FExpr
  | gte (a b : FExpr) : FExpr
  | ifE (c x y : FExpr) : FExpr
  | add (a b : FExpr) : FExpr
  | sub (a b : FExpr) : FExpr
  | mul (a b : FExpr) : FExpr
  | div (a b : FExpr) : FExpr
  deriving Repr, DecidableEq

/-- FFmpeg expression evaluation at time `t` (`timeVar` is the time
expression handed to `linearExpr`, usually literal `t`). -/
def FExpr.eval (t : ℚ) : FExpr → ℚ
  | .timeVar => t
  | .const q => q
  | .lt a b => if a.eval t < b.eval t then 1 else 0
  | .gte a b => if b.eval t ≤ a.eval t then 1 else 0
  | .ifE c x y => if c.eval t ≠ 0 then x.eval t else y.eval t
  | .add a b => a.eval t + b.eval t
  | .sub a b => a.eval t - b.eval t
  | .mul a b => a.eval t * b.eval t
  | .div a b => a.eval t / b.eval t

/-- `%.3f` formatting: round to 3 decimal places. -/
def round3 (q : ℚ) : ℚ := (round (q * 1000) : ℤ) / 1000

/-- A rational exactly representable with 3 decimal places (no rounding loss
under `%.3f`). -/
def isMilli (q : ℚ) : Prop := ∃ n : ℤ, q = (n : ℚ) / 1000

/-- `linearExpr(tExpr, start, duration, from, to)` — linear interpolation
expression builder.  Mirrors the Go source: `duration <= 0` returns the
constant `from` (formatted `%.3f`); otherwise the clamped interpolation
expression, every numeric literal formatted with `%.3f`. -/
def linearExpr (tExpr : FExpr) (start duration fromV toV : ℚ) : FExpr :=
  if duration ≤ 0 then .const (round3 fromV)
  else
    .ifE (.lt tExpr (.const (round3 start)))
      (.const (round3 fromV))
      (.ifE (.gte tExpr (.const (round3 (start + duration))))
        (.const (round3 toV))
        (.add (.const (round3 fromV))
          (.mul (.sub (.const (round3 toV)) (.const (round3 fromV)))
            (.div (.sub tExpr (.const (round3 start))) (.const (round3 duration))))))

/-! ## Per-pixel filters (`filter.go`) -/

/-- The `Filter` enum of `filter.go` (`Inverse`, `BlackWhite`, `Sepia`,
`Edge`, `SepiaTone`). -/
inductive Filter : Type
  | Inverse | BlackWhite | Sepia | Edge | SepiaTone
  deriving Repr, DecidableEq

/-- `inverseColors(data, i)`: `data[i] = 255 - data[i]` for the three RGB
channels; alpha (`i+3`) untouched.  Byte subtraction cannot wrap since
entries are < 256. -/
def inverseColors (data : List ℕ) (i : ℕ) : List ℕ :=
  let d1 := data.set i (255 - data.getD i 0)
  let d2 := d1.set (i + 1) (255 - d1.getD (i + 1) 0)
  d2.set (i + 2) (255 - d2.getD (i + 2) 0)

/-- `blackAndWhite(data, i)`: `gray = uint8((77*r + 150*g + 29*b) >> 8)`
written to all three RGB channels; alpha untouched. -/
def blackAndWhite (data : List ℕ) (i : ℕ) : List ℕ :=
  let r := data.getD i 0
  let g := data.getD (i + 1) 0
  let b := data.getD (i + 2) 0
  let gray := ((77 * r + 150 * g + 29 * b) >>> 8) % 256
  ((data.set i gray).set (i + 1) gray).set (i + 2) gray

/-- `sepiaTone(data, i)`: fixed-point sepia with clamping to 255, then
`uint8` conversion; alpha untouched. -/
def sepiaTone (data : List ℕ) (i : ℕ) : List ℕ :=
  let r := data.getD i 0
  let g := data.getD (i + 1) 0
  let b := data.getD (i + 2) 0
  let newRed0 := (402 * r + 787 * g + 194 * b) >>> 10
  let newRed := if newRed0 > 255 then 255 else newRed0
  let newGreen0 := (357 * r + 702 * g + 172 * b) >>> 10
  let newGreen := if newGreen0 > 255 then 255 else newGreen0
  let newBlue0 := (278 * r + 547 * g + 134 * b) >>> 10
  let newBlue := if newBlue0 > 255 then 255 else newBlue0
  ((data.set i (newRed % 256)).set (i + 1) (newGreen % 256)).set (i + 2) (newBlue % 256)

/-- `edgeDetection(data, i)`: average of the three channels (integer
division by 3); RGB set to 255 when `85 < avg < 170`, else 0; alpha
untouched. -/
def edgeDetection (data : List ℕ) (i : ℕ) : List ℕ :=
  let avg := (data.getD i 0 + data.getD (i + 1) 0 + data.getD (i + 2) 0) / 3
  if avg > 85 ∧ avg < 170 then
    ((data.set i 255).set (i + 1) 255).set (i + 2) 255
  else
    ((data.set i 0).set (i + 1) 0).set (i + 2) 0

/-- The `switch` dispatch inside `composeFilters`' returned closure.  Note
the Go `switch` has no case for `SepiaTone`, so that enum value is a
no-op there. -/
def applyBuiltinFilter (f : Filter) (data : List ℕ) (i : ℕ) : List ℕ :=
  match f with
  | .Inverse => inverseColors data i
  | .BlackWhite => blackAndWhite data i
  | .Sepia => sepiaTone data i
  | .Edge => edgeDetection data i
  | .SepiaTone => data

/-- `composeFilters(customFilters, filters)`: returns `nil` (here `none`)
when both lists are empty; otherwise a single function that applies all
custom filters in order, then all built-in filters in order. -/
def composeFilters (customFilters : List (List ℕ → ℕ → List ℕ)) (filters : List Filter) :
    Option (List ℕ → ℕ → List ℕ) :=
  if customFilters.length = 0 ∧ filters.length = 0 then none
  else
    some (fun data i =>
      let afterCustom := customFilters.foldl (fun d fn => fn d i) data
      filters.foldl (fun d f => applyBuiltinFilter f d i) afterCustom)

/-! ## Chunk partitioning (`frame_processor.go`, `workerPool.processFrame`)

`processFrame` splits the frame buffer of length `L` into `P` chunks:
`chunkSize := L / P`, rounded down to a multiple of 4; worker `w` gets
`[w*chunkSize, w*chunkSize+chunkSize)`, except the last worker whose end is
`L`. -/

/-- The list of `(start, end)` chunk bounds issued by
`workerPool.processFrame` for a buffer of length `L` and `P` workers. -/
def processFrameChunks (L P : ℕ) : List (ℕ × ℕ) :=
  let chunkSize0 := L / P
  let chunkSize := if chunkSize0 % 4 ≠ 0 then chunkSize0 - chunkSize0 % 4 else chunkSize0
  (List.range P).map (fun worker =>
    let start := worker * chunkSize
    let stop := if worker = P - 1 then L else start + chunkSize
    (start, stop))

/-! ## Helper lemmas -/

lemma getD_set_self (l : List ℕ) (i : ℕ) (h : i < l.length) (v d : ℕ) :
    (l.set i v).getD i d = v := by
  simp [List.getD_eq_getElem?_getD, List.getElem?_set_self, h]

lemma getD_set_ne (l : List ℕ) {i j : ℕ} (hij : i ≠ j) (v d : ℕ) :
    (l.set i v).getD j d = l.getD j d := by
  simp [List.getD_eq_getElem?_getD, List.getElem?_set_ne, hij]

lemma round3_milli {q : ℚ} (h : isMilli q) : round3 q = q := by
  obtain ⟨n, rfl⟩ := h
  unfold round3
  rw [div_mul_cancel₀]
  · rw [round_intCast]
  · norm_num

lemma isMilli.add {a b : ℚ} (ha : isMilli a) (hb : isMilli b) : isMilli (a + b) := by
  obtain ⟨n, rfl⟩ := ha
  obtain ⟨m, rfl⟩ := hb
  exact ⟨n + m, by push_cast; ring⟩

lemma set3_getD (data : List ℕ) (i a b c : ℕ) (hi : i + 3 < data.length) :
    (((data.set i a).set (i + 1) b).set (i + 2) c).getD i 0 = a
  ∧ (((data.set i a).set (i + 1) b).set (i + 2) c).getD (i + 1) 0 = b
  ∧ (((data.set i a).set (i + 1) b).set (i + 2) c).getD (i + 2) 0 = c
  ∧ (((data.set i a).set (i + 1) b).set (i + 2) c).getD (i + 3) 0 = data.getD (i + 3) 0 := by
  refine ⟨?_, ?_, ?_, ?_⟩
  · rw [getD_set_ne _ (by omega), getD_set_ne _ (by omega),
      getD_set_self _ _ (by omega)]
  · rw [getD_set_ne _ (by omega),
      getD_set_self _ _ (by rw [List.length_set]; omega)]
  · rw [getD_set_self _ _ (by rw [List.length_set, List.length_set]; omega)]
  · rw [getD_set_ne _ (by omega), getD_set_ne _ (by omega), getD_set_ne _ (by omega)]

lemma getD_lt_256 (data : List ℕ) (hb : ∀ x ∈ data, x < 256) (j : ℕ)
    (hj : j < data.length) : data.getD j 0 < 256 := by
  rw [List.getD_eq_getElem?_getD, List.getElem?_eq_getElem hj]
  exact hb _ (List.getElem_mem hj)

/-! ## C1 — `linearExpr` semantics -/

/-- C1: for 3-decimal inputs, the expression built by `linearExpr` evaluates
at time `t` to `from` when `t < start`, to `to` when `t ≥ start + duration`,
and to `from + (to-from)*((t-start)/duration)` in between (so the midpoint
`t = start + duration/2` yields `(from+to)/2` exactly); for `duration ≤ 0`
the returned expression is the constant `from` formatted to 3 decimals. -/
theorem linearExpr_spec (tq start duration fromV toV : ℚ)
    (hs : isMilli start) (hd : isMilli duration) (hf : isMilli fromV) (ht : isMilli toV) :
    (0 < duration →
        ((tq < start → (linearExpr .timeVar start duration fromV toV).eval tq = fromV)
      ∧ (start + duration ≤ tq → (linearExpr .timeVar start duration fromV toV).eval tq = toV)
      ∧ (start ≤ tq → tq < start + duration →
            (linearExpr .timeVar start duration fromV toV).eval tq
              = fromV + (toV - fromV) * ((tq - start) / duration))
      ∧ (linearExpr .timeVar start duration fromV toV).eval (start + duration / 2)
          = (fromV + toV) / 2))
  ∧ (duration ≤ 0 → linearExpr .timeVar start duration fromV toV = .const (round3 fromV)) := by
  have hs' := round3_milli hs
  have hd' := round3_milli hd
  have hf' := round3_milli hf
  have ht' := round3_milli ht
  have hsd' := round3_milli (hs.add hd)
  constructor
  · intro hpos
    have hne : ¬duration ≤ 0 := not_le.mpr hpos
    have hd0 : duration ≠ 0 := ne_of_gt hpos
    have hinterp : ∀ t : ℚ, start ≤ t → t < start + duration →
        (linearExpr .timeVar start duration fromV toV).eval t
          = fromV + (toV - fromV) * ((t - start) / duration) := by
      intro t h1 h2
      have h3 : ¬t < start := not_lt.mpr h1
      have h4 : ¬start + duration ≤ t := not_le.mpr h2
      simp [linearExpr, if_neg hne, FExpr.eval, hs', hsd', hf', ht', hd', h3, h4]
    refine ⟨?_, ?_, fun h1 h2 => hinterp tq h1 h2, ?_⟩
    · intro h
      simp [linearExpr, if_neg hne, FExpr.eval, hs', hf', h]
    · intro h
      have h2 : ¬tq < start := by linarith
      simp [linearExpr, if_neg hne, FExpr.eval, hs', hsd', ht', h, h2]
    · rw [hinterp (start + duration / 2) (by linarith) (by linarith)]
      field_simp
      ring
  · intro hle
    rw [linearExpr, if_pos hle]

/-- C1 witness: `linear("t",0,2,100,200)` at `t = 1` interpolates. -/
theorem linearExpr_spec_witness :
    (0:ℚ) ≤ 1 ∧ (1:ℚ) < 0 + 2
  ∧ (linearExpr .timeVar 0 2 100 200).eval 1 = 100 + (200 - 100) * ((1 - 0) / 2) :=
  ⟨by norm_num, by norm_num,
    ((linearExpr_spec 1 0 2 100 200 ⟨0, by norm_num⟩ ⟨2000, by norm_num⟩
      ⟨100000, by norm_num⟩ ⟨200000, by norm_num⟩).1 (by norm_num)).2.2.1
      (by norm_num) (by norm_num)⟩

/-! ## C2 — chunk partition of `processFrame` -/

lemma processFrameChunks_eq (L P : ℕ) :
    processFrameChunks L P = (List.range P).map (fun w =>
      (w * (L / P - L / P % 4),
        if w = P - 1 then L else w * (L / P - L / P % 4) + (L / P - L / P % 4))) := by
  have h : ∀ n : ℕ, (if n % 4 ≠ 0 then n - n % 4 else n) = n - n % 4 := by
    intro n
    split <;> omega
  unfold processFrameChunks
  simp only [h]

/-- C2: for `L` divisible by 4 and `P ≥ 1` workers, `processFrame`'s chunk
partition has every boundary a multiple of 4, chunks are contiguous
(chunk `k`'s end is chunk `k+1`'s start), the first chunk starts at 0, the
last ends at `L`, and together the chunks cover exactly `[0, L)`. -/
theorem processFrameChunks_spec (L P : ℕ) (hL : L % 4 = 0) (hP : 1 ≤ P) :
    (processFrameChunks L P).length = P
  ∧ (∀ c ∈ processFrameChunks L P, c.1 % 4 = 0 ∧ c.2 % 4 = 0 ∧ c.1 ≤ c.2 ∧ c.2 ≤ L)
  ∧ (∀ k, k + 1 < P → ∃ a b b', (processFrameChunks L P)[k]? = some (a, b)
        ∧ (processFrameChunks L P)[k + 1]? = some (b, b'))
  ∧ (∃ e, (processFrameChunks L P)[0]? = some (0, e))
  ∧ (∃ s, (processFrameChunks L P)[P - 1]? = some (s, L))
  ∧ (∀ j, j < L ↔ ∃ c ∈ processFrameChunks L P, c.1 ≤ j ∧ j < c.2) := by
  rw [processFrameChunks_eq]
  have hdm : L / P * P ≤ L := Nat.div_mul_le_self L P
  generalize hn : L / P = n at *
  set m := n - n % 4 with hm
  have hm4 : m % 4 = 0 := by omega
  have hmn : m ≤ n := by omega
  have hPm : P * m ≤ L := by
    calc P * m ≤ P * n := Nat.mul_le_mul_left P hmn
    _ = n * P := Nat.mul_comm _ _
    _ ≤ L := hdm
  set chunks := (List.range P).map (fun w =>
    (w * m, if w = P - 1 then L else w * m + m)) with hchunks
  have hmem : ∀ c ∈ chunks, c.1 % 4 = 0 ∧ c.2 % 4 = 0 ∧ c.1 ≤ c.2 ∧ c.2 ≤ L := by
    intro c hc
    obtain ⟨w, hw, rfl⟩ := List.mem_map.mp hc
    rw [List.mem_range] at hw
    dsimp only
    have hwm4 : w * m % 4 = 0 := by simp [Nat.mul_mod, hm4]
    have hw1m : w * m + m ≤ P * m := by
      have h := Nat.mul_le_mul (show w + 1 ≤ P by omega) (le_rfl : m ≤ m)
      rw [Nat.succ_mul] at h
      exact h
    by_cases hlast : w = P - 1
    · rw [if_pos hlast]
      exact ⟨hwm4, hL, by omega, le_rfl⟩
    · rw [if_neg hlast]
      exact ⟨hwm4, by omega, by omega, by omega⟩
  refine ⟨?_, hmem, ?_, ?_, ?_, ?_⟩
  · simp [hchunks]
  · intro k hk
    refine ⟨k * m, k * m + m, if k + 1 = P - 1 then L else (k + 1) * m + m, ?_, ?_⟩
    · rw [hchunks, List.getElem?_map, List.getElem?_range (by omega)]
      have hne : k ≠ P - 1 := by omega
      simp [hne]
    · rw [hchunks, List.getElem?_map, List.getElem?_range hk]
      simp [Nat.succ_mul]
  · refine ⟨if 0 = P - 1 then L else 0 * m + m, ?_⟩
    rw [hchunks, List.getElem?_map, List.getElem?_range (by omega)]
    simp
  · refine ⟨(P - 1) * m, ?_⟩
    rw [hchunks, List.getElem?_map, List.getElem?_range (by omega)]
    simp
  · intro j
    constructor
    · intro hj
      by_cases hm0 : m = 0
      · refine ⟨((P - 1) * m, if P - 1 = P - 1 then L else (P - 1) * m + m), ?_, ?_, ?_⟩
        · exact List.mem_map.mpr ⟨P - 1, List.mem_range.mpr (by omega), rfl⟩
        · simp [hm0]
        · simpa using hj
      · have hmpos : 0 < m := Nat.pos_of_ne_zero hm0
        set w := min (j / m) (P - 1) with hw
        have hw1 : w ≤ P - 1 := min_le_right _ _
        have hw2 : w ≤ j / m := min_le_left _ _
        refine ⟨(w * m, if w = P - 1 then L else w * m + m), ?_, ?_, ?_⟩
        · exact List.mem_map.mpr ⟨w, List.mem_range.mpr (by omega), rfl⟩
        · calc w * m ≤ j / m * m := Nat.mul_le_mul hw2 le_rfl
          _ ≤ j := Nat.div_mul_le_self j m
        · by_cases hlast : w = P - 1
          · simpa [hlast] using hj
          · have hwj : w = j / m := by omega
            simp only [if_neg hlast]
            have h1 := Nat.div_add_mod j m
            have h2 : j % m < m := Nat.mod_lt j hmpos
            rw [hwj]
            linarith [h1, h2]
    · rintro ⟨c, hc, h1, h2⟩
      have := (hmem c hc).2.2.2
      omega

/-- C2 witness: 24-byte buffer, 3 workers. -/
theorem processFrameChunks_spec_witness :
    (processFrameChunks 24 3).length = 3
  ∧ (∃ s, (processFrameChunks 24 3)[3 - 1]? = some (s, 24)) :=
  ⟨(processFrameChunks_spec 24 3 (by decide) (by decide)).1,
    (processFrameChunks_spec 24 3 (by decide) (by decide)).2.2.2.2.1⟩

/-! ## C7 — built-in filter semantics -/

/-- C7: each built-in per-pixel filter computes exactly its fixed-point
formula and leaves the alpha byte `i+3` unchanged: invert is `255 - c` per
RGB channel; grayscale writes `(77R+150G+29B)>>8` to all three; sepia
writes the three `>>10` combinations clamped to 255; edge writes 255 when
the RGB average lies strictly between 85 and 170 and 0 otherwise.  Concrete:
invert (10,20,30,255) = (245,235,225,255); grayscale (255,0,0,255) =
(76,76,76,255) (the spec's "≈77"). -/
theorem builtinFilters_spec (data : List ℕ) (i : ℕ) (hi : i + 3 < data.length)
    (hb : ∀ x ∈ data, x < 256) :
    ((inverseColors data i).getD i 0 = 255 - data.getD i 0
      ∧ (inverseColors data i).getD (i + 1) 0 = 255 - data.getD (i + 1) 0
      ∧ (inverseColors data i).getD (i + 2) 0 = 255 - data.getD (i + 2) 0
      ∧ (inverseColors data i).getD (i + 3) 0 = data.getD (i + 3) 0)
  ∧ ((blackAndWhite data i).getD i 0
        = (77 * data.getD i 0 + 150 * data.getD (i + 1) 0 + 29 * data.getD (i + 2) 0) >>> 8
      ∧ (blackAndWhite data i).getD (i + 1) 0
        = (77 * data.getD i 0 + 150 * data.getD (i + 1) 0 + 29 * data.getD (i + 2) 0) >>> 8
      ∧ (blackAndWhite data i).getD (i + 2) 0
        = (77 * data.getD i 0 + 150 * data.getD (i + 1) 0 + 29 * data.getD (i + 2) 0) >>> 8
      ∧ (blackAndWhite data i).getD (i + 3) 0 = data.getD (i + 3) 0)
  ∧ ((sepiaTone data i).getD i 0
        = min ((402 * data.getD i 0 + 787 * data.getD (i + 1) 0 + 194 * data.getD (i + 2) 0) >>> 10) 255
      ∧ (sepiaTone data i).getD (i + 1) 0
        = min ((357 * data.getD i 0 + 702 * data.getD (i + 1) 0 + 172 * data.getD (i + 2) 0) >>> 10) 255
      ∧ (sepiaTone data i).getD (i + 2) 0
        = min ((278 * data.getD i 0 + 547 * data.getD (i + 1) 0 + 134 * data.getD (i + 2) 0) >>> 10) 255
      ∧ (sepiaTone data i).getD (i + 3) 0 = data.getD (i + 3) 0)
  ∧ ((edgeDetection data i).getD i 0
        = (if (data.getD i 0 + data.getD (i + 1) 0 + data.getD (i + 2) 0) / 3 > 85
              ∧ (data.getD i 0 + data.getD (i + 1) 0 + data.getD (i + 2) 0) / 3 < 170
            then 255 else 0)
      ∧ (edgeDetection data i).getD (i + 1) 0
        = (if (data.getD i 0 + data.getD (i + 1) 0 + data.getD (i + 2) 0) / 3 > 85
              ∧ (data.getD i 0 + data.getD (i + 1) 0 + data.getD (i + 2) 0) / 3 < 170
            then 255 else 0)
      ∧ (edgeDetection data i).getD (i + 2) 0
        = (if (data.getD i 0 + data.getD (i + 1) 0 + data.getD (i + 2) 0) / 3 > 85
              ∧ (data.getD i 0 + data.getD (i + 1) 0 + data.getD (i + 2) 0) / 3 < 170
            then 255 else 0)
      ∧ (edgeDetection data i).getD (i + 3) 0 = data.getD (i + 3) 0)
  ∧ inverseColors [10, 20, 30, 255] 0 = [245, 235, 225, 255]
  ∧ blackAndWhite [255, 0, 0, 255] 0 = [76, 76, 76, 255] := by
  have hr := getD_lt_256 data hb i (by omega)
  have hg := getD_lt_256 data hb (i + 1) (by omega)
  have hbl := getD_lt_256 data hb (i + 2) (by omega)
  refine ⟨?_, ?_, ?_, ?_, by decide, by decide⟩
  · have e1 : (data.set i (255 - data.getD i 0)).getD (i + 1) 0 = data.getD (i + 1) 0 :=
      getD_set_ne data (by omega) _ _
    have e2 : ((data.set i (255 - data.getD i 0)).set (i + 1)
          (255 - data.getD (i + 1) 0)).getD (i + 2) 0 = data.getD (i + 2) 0 := by
      rw [getD_set_ne _ (by omega), getD_set_ne data (by omega)]
    have hinv : inverseColors data i
        = ((data.set i (255 - data.getD i 0)).set (i + 1)
            (255 - data.getD (i + 1) 0)).set (i + 2) (255 - data.getD (i + 2) 0) := by
      simp only [inverseColors, e1, e2]
    rw [hinv]
    exact set3_getD data i _ _ _ hi
  · have hglt : (77 * data.getD i 0 + 150 * data.getD (i + 1) 0 + 29 * data.getD (i + 2) 0) >>> 8
        < 256 := by
      rw [Nat.shiftRight_eq_div_pow]
      omega
    simp only [blackAndWhite]
    rw [Nat.mod_eq_of_lt hglt]
    exact set3_getD data i _ _ _ hi
  · have hsep : ∀ x : ℕ, (if x > 255 then 255 else x) % 256 = min x 255 := by
      intro x
      rw [Nat.min_def]
      split <;> split <;> omega
    simp only [sepiaTone, hsep]
    exact set3_getD data i _ _ _ hi
  · by_cases hcond : (data.getD i 0 + data.getD (i + 1) 0 + data.getD (i + 2) 0) / 3 > 85
        ∧ (data.getD i 0 + data.getD (i + 1) 0 + data.getD (i + 2) 0) / 3 < 170
    · simp only [edgeDetection, if_pos hcond]
      exact set3_getD data i _ _ _ hi
    · simp only [edgeDetection, if_neg hcond]
      exact set3_getD data i _ _ _ hi

/-- C7 witness: the two concrete pixel examples. -/
theorem builtinFilters_spec_witness :
    inverseColors [10, 20, 30, 255] 0 = [245, 235, 225, 255]
  ∧ blackAndWhite [255, 0, 0, 255] 0 = [76, 76, 76, 255] :=
  ⟨(builtinFilters_spec [10, 20, 30, 255] 0 (by decide) (by decide)).2.2.2.2.1,
   (builtinFilters_spec [255, 0, 0, 255] 0 (by decide) (by decide)).2.2.2.2.2⟩

/-! ## C10 — `composeFilters` composition order -/

/-- C10: `composeFilters` returns `nil` exactly when both filter lists are
empty; otherwise the composed function equals the sequential composition of
all custom filters in list order followed by all built-in filters in list
order. -/
theorem composeFilters_spec (customFilters : List (List ℕ → ℕ → List ℕ))
    (filters : List Filter) :
    (composeFilters customFilters filters = none ↔ customFilters = [] ∧ filters = [])
  ∧ (∀ f, composeFilters customFilters filters = some f →
      ∀ data i, f data i =
        (customFilters.map (fun fn => fun d => fn d i)
          ++ filters.map (fun bf => fun d => applyBuiltinFilter bf d i)).foldl
            (fun d act => act d) data) := by
  constructor
  · by_cases hc : customFilters = [] ∧ filters = []
    · simp [composeFilters, hc]
    · have hlen : ¬(customFilters.length = 0 ∧ filters.length = 0) := by
        simpa [List.length_eq_zero] using hc
      simp [composeFilters, hlen, hc]
  · intro f hf data i
    by_cases hcond : customFilters.length = 0 ∧ filters.length = 0
    · rw [composeFilters, if_pos hcond] at hf
      exact absurd hf (by simp)
    · rw [composeFilters, if_neg hcond] at hf
      injection hf with hf'
      subst hf'
      rw [List.foldl_append, List.foldl_map, List.foldl_map]

/-- C10 witness: one built-in filter, no custom filters. -/
theorem composeFilters_spec_witness :
    inverseColors [10, 20, 30, 255] 0 =
      ((([] : List (List ℕ → ℕ → List ℕ)).map (fun fn => fun d => fn d 0))
        ++ [Filter.Inverse].map (fun bf => fun d => applyBuiltinFilter bf d 0)).foldl
          (fun d act => act d) [10, 20, 30, 255] :=
  (composeFilters_spec [] [Filter.Inverse]).2 _ rfl [10, 20, 30, 255] 0

/-! ## Data model — `Video` and composite items (video.go, composite.go) -/

/-- `PositionAnimParams` (position animation of a composite item). -/
structure PositionAnimParams where
  Start : ℚ
  Duration : ℚ
  FromX : ℚ
  ToX : ℚ
  FromY : ℚ
  ToY : ℚ

/-- `CompositeClipItem` (composite.go 17-32), parametric in the video type
so that `Video` can nest it.  The rotation/scale animation structs are not
needed by the claims below and are omitted; the remaining fields mirror the
source. -/
structure CompositeClipItemG (V : Type) where
  video : Option V
  x : ℤ
  y : ℤ
  width : ℕ
  height : ℕ
  startTime : ℚ
  duration : ℚ
  opacity : ℚ
  layer : ℤ
  positionAnim : Option PositionAnimParams

/-- The `Video` struct (video.go 16-45): the fields the verified operations
read or write.  `sourceVideos = none` models Go's nil slice (a plain
video); `some vs` a lazy concatenation.  Omitted fields (the `ffmpegArgs`
map, `filters`/`customFilters` slices, the embedded audio struct —
represented by its `hasAudio` presence flag — and the overlay-clip
collections) are not read by any claim below. -/
inductive Video : Type where
  | mk
    (filename : String) (codec : String)
    (width : ℕ) (height : ℕ) (fps : ℕ)
    (duration : ℚ) (frames : ℕ)
    (hasAudio : Bool)
    (bitRate : String) (preset : String) (pixelFormat : String)
    (withMask : Bool) (isTemp : Bool)
    (startTime : ℚ) (endTime : ℚ)
    (sourceVideos : Option (List Video))
    (compositeItems : List (CompositeClipItemG Video))

def Video.filename : Video → String
  | .mk f _ _ _ _ _ _ _ _ _ _ _ _ _ _ _ _ => f

def Video.codec : Video → String
  | .mk _ c _ _ _ _ _ _ _ _ _ _ _ _ _ _ _ => c

def Video.width : Video → ℕ
  | .mk _ _ w _ _ _ _ _ _ _ _ _ _ _ _ _ _ => w

def Video.height : Video → ℕ
  | .mk _ _ _ h _ _ _ _ _ _ _ _ _ _ _ _ _ => h

def Video.fps : Video → ℕ
  | .mk _ _ _ _ f _ _ _ _ _ _ _ _ _ _ _ _ => f

def Video.duration : Video → ℚ
  | .mk _ _ _ _ _ d _ _ _ _ _ _ _ _ _ _ _ => d

def Video.frames : Video → ℕ
  | .mk _ _ _ _ _ _ fr _ _ _ _ _ _ _ _ _ _ => fr

def Video.hasAudio : Video → Bool
  | .mk _ _ _ _ _ _ _ a _ _ _ _ _ _ _ _ _ => a

def Video.bitRate : Video → String
  | .mk _ _ _ _ _ _ _ _ b _ _ _ _ _ _ _ _ => b

def Video.preset : Video → String
  | .mk _ _ _ _ _ _ _ _ _ p _ _ _ _ _ _ _ => p

def Video.pixelFormat : Video → String
  | .mk _ _ _ _ _ _ _ _ _ _ pf _ _ _ _ _ _ => pf

def Video.withMask : Video → Bool
  | .mk _ _ _ _ _ _ _ _ _ _ _ wm _ _ _ _ _ => wm

def Video.sourceVideos : Video → Option (List Video)
  | .mk _ _ _ _ _ _ _ _ _ _ _ _ _ _ _ sv _ => sv

def Video.compositeItems : Video → List (CompositeClipItemG Video)
  | .mk _ _ _ _ _ _ _ _ _ _ _ _ _ _ _ _ ci => ci

/-! ## C8 — `ConcatenateVideos` (concatenate.go 15-82) -/

/-- `ConcatenateVideos(videos)`: validates non-empty input; flattens lazy
concatenations by substituting their source lists; drops plain members
without a filename or with non-positive duration; errors when nothing valid
remains; otherwise builds the lazy concatenation `Video` (duration = summed
member durations, codec/format hints from the first valid member, frames =
`uint64(fps * duration)`). -/
def ConcatenateVideos (videos : List (Option Video)) : Except String Video :=
  if videos.length = 0 then .error "no videos provided for concatenation"
  else
    let validVideos := videos.foldl (fun acc video? =>
      match video? with
      | none => acc
      | some video =>
        match video.sourceVideos with
        | some src => acc ++ src
        | none =>
          if video.filename ≠ "" ∧ 0 < video.duration then acc ++ [video] else acc) []
    match validVideos with
    | [] => .error "no valid videos to concatenate"
    | firstVideo :: rest =>
      let totalDuration := (firstVideo :: rest).foldl (fun acc video => acc + video.duration) 0
      let audioFlag := (firstVideo :: rest).foldl (fun acc video => acc || video.hasAudio) false
      .ok (Video.mk "" firstVideo.codec firstVideo.width firstVideo.height firstVideo.fps
        totalDuration (⌊(firstVideo.fps : ℚ) * totalDuration⌋).toNat audioFlag
        firstVideo.bitRate firstVideo.preset firstVideo.pixelFormat
        firstVideo.withMask false 0 0 (some (firstVideo :: rest)) [])

/-- The spec's description of the valid-member list: substitute the source
list of each lazy concatenation, drop plain members with no filename or
non-positive duration. -/
def specValidMembers (videos : List (Option Video)) : List Video :=
  videos.flatMap (fun video? =>
    match video? with
    | none => []
    | some video =>
      match video.sourceVideos with
      | some src => src
      | none =>
        if video.filename ≠ "" ∧ 0 < video.duration then [video] else [])

lemma concatFold_eq (videos : List (Option Video)) (acc : List Video) :
    videos.foldl (fun acc video? =>
      match video? with
      | none => acc
      | some video =>
        match video.sourceVideos with
        | some src => acc ++ src
        | none =>
          if video.filename ≠ "" ∧ 0 < video.duration then acc ++ [video] else acc) acc
    = acc ++ specValidMembers videos := by
  induction videos generalizing acc with
  | nil => simp [specValidMembers]
  | cons v vs ih =>
    rw [List.foldl_cons]
    cases v with
    | none => simpa [specValidMembers] using ih acc
    | some video =>
      cases hsv : video.sourceVideos with
      | some src => simp [specValidMembers, hsv, ih, List.append_assoc]
      | none =>
        by_cases hc : video.filename ≠ "" ∧ 0 < video.duration
        · simp [specValidMembers, hsv, hc, ih, List.append_assoc]
        · simp [specValidMembers, hsv, hc, ih]

lemma foldl_add_duration (l : List Video) (a : ℚ) :
    l.foldl (fun acc v => acc + v.duration) a = a + (l.map Video.duration).sum := by
  induction l generalizing a with
  | nil => simp
  | cons v vs ih => simp [ih, add_assoc]

/-- C8: `ConcatenateVideos` errors on an empty list; flattens lazy members
and drops invalid plain members (`specValidMembers`); errors when no valid
member remains; otherwise succeeds with duration the sum of the valid
members' durations and codec/dimension/frame-rate/format hints from the
first valid member. -/
theorem concatenateVideos_spec :
    (ConcatenateVideos [] = .error "no videos provided for concatenation")
  ∧ (∀ videos, videos ≠ [] → specValidMembers videos = [] →
      ConcatenateVideos videos = .error "no valid videos to concatenate")
  ∧ (∀ videos v, ConcatenateVideos videos = .ok v →
      ∃ first rest, specValidMembers videos = first :: rest
        ∧ v.sourceVideos = some (first :: rest)
        ∧ v.duration = ((first :: rest).map Video.duration).sum
        ∧ v.codec = first.codec ∧ v.width = first.width ∧ v.height = first.height
        ∧ v.fps = first.fps ∧ v.pixelFormat = first.pixelFormat
        ∧ v.bitRate = first.bitRate ∧ v.preset = first.preset
        ∧ v.filename = "") := by
  refine ⟨rfl, ?_, ?_⟩
  · intro videos hne hval
    have hlen : ¬videos.length = 0 := by simpa [List.length_eq_zero] using hne
    rw [ConcatenateVideos, if_neg hlen]
    simp only [concatFold_eq, List.nil_append, hval]
  · intro videos v hok
    by_cases hlen : videos.length = 0
    · rw [ConcatenateVideos, if_pos hlen] at hok
      exact absurd hok (by simp)
    · rw [ConcatenateVideos, if_neg hlen] at hok
      simp only [concatFold_eq, List.nil_append] at hok
      cases hspec : specValidMembers videos with
      | nil =>
        rw [hspec] at hok
        exact absurd hok (by simp)
      | cons first rest =>
        rw [hspec] at hok
        dsimp only at hok
        injection hok with h
        subst h
        refine ⟨first, rest, rfl, rfl, ?_, rfl, rfl, rfl, rfl, rfl, rfl, rfl, rfl⟩
        show (first :: rest).foldl (fun acc v => acc + v.duration) 0
          = ((first :: rest).map Video.duration).sum
        rw [foldl_add_duration, zero_add]

/-- A plain 2-second example clip. -/
def exVideoA : Video := .mk "a" "h264" 640 480 30 2 60 false "" "" "" false false 0 0 none []

/-- A plain 3-second example clip. -/
def exVideoB : Video := .mk "b" "h265" 320 200 25 3 75 false "" "" "" false false 0 0 none []

/-- C8 witness: concatenating the 2s and 3s example clips yields a video
whose duration is the sum of the members' durations. -/
theorem concatenateVideos_spec_witness :
    (ConcatenateVideos [some exVideoA, some exVideoB]).map Video.duration
      = .ok (([exVideoA, exVideoB].map Video.duration).sum) := by
  have h := concatenateVideos_spec.2.2 [some exVideoA, some exVideoB] _ rfl
  obtain ⟨first, rest, hspec, -, hdur, -⟩ := h
  have hfr : first :: rest = [exVideoA, exVideoB] :=
    hspec.symm.trans (show specValidMembers [some exVideoA, some exVideoB]
      = [exVideoA, exVideoB] from rfl)
  rw [hfr] at hdur
  exact congrArg Except.ok hdur

/-! ## C9 — empty composite / zero valid clips (composite.go 875-878) -/

/-- Source enumeration of `writeCompositeVideo` (composite.go 881-893):
distinct source filenames in first-seen order. -/
def buildSources (items : List (CompositeClipItemG Video)) : List String :=
  items.foldl (fun sources item =>
    match item.video with
    | none => sources
    | some v => if v.filename ∈ sources then sources else sources ++ [v.filename]) []

/-- The compile-time prefix of `writeCompositeVideo` (composite.go
875-893): the empty-composite check and the source enumeration.  The rest
of the Go function only assembles and runs the external FFmpeg process, so
an `.error` result here means compilation fails before any output is
produced. -/
def writeCompositeVideo (video : Video) : Except String (List String) :=
  if video.compositeItems.length = 0 then .error "no clips in composite video"
  else .ok (buildSources video.compositeItems)

/-- C9: compiling a composite with no clips fails with the
"no clips in composite video" error (and produces no FFmpeg plan), and
concatenation with zero valid clips errors rather than proceeding. -/
theorem emptyComposite_spec :
    (∀ video : Video, video.compositeItems = [] →
        writeCompositeVideo video = .error "no clips in composite video")
  ∧ (∀ videos, videos ≠ [] → specValidMembers videos = [] →
        ConcatenateVideos videos = .error "no valid videos to concatenate") := by
  constructor
  · intro video hempty
    rw [writeCompositeVideo, if_pos (by simp [hempty])]
  · intro videos hne hval
    have hlen : ¬videos.length = 0 := by simpa [List.length_eq_zero] using hne
    rw [ConcatenateVideos, if_neg hlen]
    simp only [concatFold_eq, List.nil_append, hval]

/-- C9 witness: an empty composite and a concatenation whose only member is
invalid (no filename, zero duration). -/
theorem emptyComposite_spec_witness :
    writeCompositeVideo (Video.mk "" "" 1920 1080 30 0 0 false "" "" "" false false 0 0 none [])
      = .error "no clips in composite video"
  ∧ ConcatenateVideos [some (Video.mk "" "" 0 0 0 0 0 false "" "" "" false false 0 0 none [])]
      = .error "no valid videos to concatenate" :=
  ⟨emptyComposite_spec.1 _ rfl,
   emptyComposite_spec.2 [some (Video.mk "" "" 0 0 0 0 0 false "" "" "" false false 0 0 none [])]
     (by simp) rfl⟩

/-! ## C5 — the layer sort and stability

`sortClipsByLayer` (composite.go 429-438) copies the item slice and calls
Go's `sort.Slice(sorted, func(i, j int) bool { return sorted[i].layer <
sorted[j].layer })`; the overlay sort (composite.go 758-761) calls
`sort.Slice` with the same comparator on `overlayItem` records.
`sort.Slice`'s documented contract is that it sorts by the comparator and
is explicitly *not* guaranteed to be stable (`sort.SliceStable` is the
stable variant).  We model the call by that contract: the set of outputs
the library is allowed to return. -/

/-- An entry of the overlay collection assembled in
`buildOverlayFilterString` (the local `overlayItem` struct): layer, clip
type tag and index into its collection. -/
structure OverlayItem where
  layer : ℤ
  clipType : String
  index : ℕ

/-- Contract of `sort.Slice(x, less)`: the output is a permutation of the
input in which no element is strictly `less` than a predecessor.  Stability
is not part of the contract. -/
def sortSliceSpec {α : Type} (less : α → α → Bool) (input output : List α) : Prop :=
  input.Perm output ∧ output.Pairwise (fun a b => less b a = false)

/-- The allowed results of `sortClipsByLayer` (composite.go 429-438). -/
def sortClipsByLayerSpec (items output : List (CompositeClipItemG Video)) : Prop :=
  sortSliceSpec (fun a b => decide (a.layer < b.layer)) items output

/-- The allowed results of the overlay sort (composite.go 758-761). -/
def sortOverlaysSpec (overlays output : List OverlayItem) : Prop :=
  sortSliceSpec (fun a b => decide (a.layer < b.layer)) overlays output

/-- Stability in the claim's sense: any two input positions with equal
layers keep their relative order in the output. -/
def preservesTieOrder {α : Type} (layerOf : α → ℤ) (input output : List α) : Prop :=
  ∀ p q : ℕ, ∀ hp : p < input.length, ∀ hq : q < input.length, p < q →
    layerOf (input.get ⟨p, hp⟩) = layerOf (input.get ⟨q, hq⟩) →
    ∀ a b : ℕ, ∀ ha : a < output.length, ∀ hb : b < output.length,
      output.get ⟨a, ha⟩ = input.get ⟨p, hp⟩ →
      output.get ⟨b, hb⟩ = input.get ⟨q, hq⟩ → a < b

/-- Two distinct composite items sharing layer 0. -/
def exItemA : CompositeClipItemG Video :=
  { video := none, x := 0, y := 0, width := 0, height := 0, startTime := 0,
    duration := 0, opacity := 1, layer := 0, positionAnim := none }

/-- A second layer-0 item, distinguished from `exItemA` by its `x`. -/
def exItemB : CompositeClipItemG Video :=
  { video := none, x := 1, y := 0, width := 0, height := 0, startTime := 0,
    duration := 0, opacity := 1, layer := 0, positionAnim := none }

/-- C5 counterexample: `[exItemB, exItemA]` is an output `sort.Slice`'s
contract allows for the input `[exItemA, exItemB]` (both at layer 0), yet
it reverses the equal-layer items' original order — the layer sort gives no
stability guarantee. -/
theorem sortClipsByLayer_not_stable :
    sortClipsByLayerSpec [exItemA, exItemB] [exItemB, exItemA]
  ∧ ¬preservesTieOrder (fun it => it.layer) [exItemA, exItemB] [exItemB, exItemA] := by
  constructor
  · refine ⟨List.Perm.swap exItemB exItemA [], ?_⟩
    simp [exItemA, exItemB, List.pairwise_cons]
  · intro h
    have h2 := h 0 1 (by simp) (by simp) (by omega) rfl 1 0 (by simp) (by simp) rfl rfl
    omega

/-- C5 amended: both layer sorts return a permutation of the input ordered
by layer ascending; the relative order of equal-layer elements is not
guaranteed. -/
theorem sortClipsByLayer_sorted_perm :
    (∀ items output, sortClipsByLayerSpec items output →
        items.Perm output ∧ output.Pairwise (fun a b => a.layer ≤ b.layer))
  ∧ (∀ overlays output, sortOverlaysSpec overlays output →
        overlays.Perm output ∧ output.Pairwise (fun a b => a.layer ≤ b.layer)) := by
  constructor
  · intro items output h
    refine ⟨h.1, h.2.imp ?_⟩
    intro a b hab
    have := of_decide_eq_false hab
    omega
  · intro overlays output h
    refine ⟨h.1, h.2.imp ?_⟩
    intro a b hab
    have := of_decide_eq_false hab
    omega

/-- C5 witness: the identity output satisfies the contract for
`[exItemA, exItemB]` and is sorted by layer. -/
theorem sortClipsByLayer_sorted_perm_witness :
    ([exItemA, exItemB] : List (CompositeClipItemG Video)).Perm [exItemA, exItemB]
  ∧ ([exItemA, exItemB] : List (CompositeClipItemG Video)).Pairwise
      (fun a b => a.layer ≤ b.layer) :=
  sortClipsByLayer_sorted_perm.1 [exItemA, exItemB] [exItemA, exItemB]
    ⟨List.Perm.refl _, by simp [exItemA, exItemB, List.pairwise_cons]⟩

/-! ## C6 — the overlay enable gate (composite.go 605-631)

For each valid composite item, `buildOverlayFilterString` emits an overlay
node `[cur][clip]overlay=x=..:y=..` and, *only when* `item.startTime > 0`,
appends `":enable='gte(t,%.3f)'"` with the start time — a lower bound only;
the end of the display window is enforced upstream by trimming the clip's
stream (`trim=start=..:duration=..`), not by the enable expression. -/

/-- The enable gate appended to a composite item's overlay node
(composite.go 615-617 for the animated branch, 624-626 for the static
branch — both append the same option): `some s` stands for the emitted
predicate `gte(t,s)`; `none` for no enable option. -/
def overlayEnableGate (startTime : ℚ) : Option ℚ :=
  if 0 < startTime then some startTime else none

/-- FFmpeg semantics of the emitted gate: `gte(t,s)` holds iff `s ≤ t`; an
absent gate leaves the overlay always enabled. -/
def gateActive : Option ℚ → ℚ → Prop
  | none, _ => True
  | some s, t => s ≤ t

/-- An item starting at t=1 with a 2-second display duration. -/
def exItemGate : CompositeClipItemG Video :=
  { video := none, x := 0, y := 0, width := 0, height := 0, startTime := 1,
    duration := 2, opacity := 1, layer := 0, positionAnim := none }

/-- C6 counterexample: for the item with `startTime = 1`, `duration = 2`,
the emitted gate is still active at `t = 5 ∉ [1, 1+2)` — the gate does not
restrict the overlay to `[startTime, startTime+duration)`. -/
theorem overlayEnableGate_not_interval :
    gateActive (overlayEnableGate exItemGate.startTime) 5
  ∧ ¬((5:ℚ) < exItemGate.startTime + exItemGate.duration) := by
  constructor
  · show gateActive (overlayEnableGate 1) 5
    rw [overlayEnableGate, if_pos (by norm_num)]
    show (1:ℚ) ≤ 5
    norm_num
  · show ¬((5:ℚ) < 1 + 2)
    norm_num

/-- C6 amended: when `startTime > 0` the emitted enable predicate is
exactly `t ≥ startTime` (a lower bound; the display duration is enforced by
trimming the clip's input stream, not by the gate), and when
`startTime ≤ 0` — in particular `startTime = 0` — no enable predicate is
emitted. -/
theorem overlayEnableGate_spec (item : CompositeClipItemG Video) :
    (0 < item.startTime →
        ∀ t, gateActive (overlayEnableGate item.startTime) t ↔ item.startTime ≤ t)
  ∧ (¬0 < item.startTime → overlayEnableGate item.startTime = none) := by
  constructor
  · intro hs t
    rw [overlayEnableGate, if_pos hs]
    exact Iff.rfl
  · intro hs
    rw [overlayEnableGate, if_neg hs]

/-- C6 witness: the gate of `exItemGate` at `t = 3`. -/
theorem overlayEnableGate_spec_witness :
    (0:ℚ) < exItemGate.startTime
  ∧ (gateActive (overlayEnableGate exItemGate.startTime) 3 ↔ exItemGate.startTime ≤ 3) :=
  ⟨by norm_num [exItemGate], (overlayEnableGate_spec exItemGate).1 (by norm_num [exItemGate]) 3⟩

/-! ## C3/C4 — the frame pipeline (`processFrameLoop`, frame_processor.go 147-283)

`processFrameLoop` runs three stages over two bounded FIFO channels of
depth 3 (`pipelineDepth`):

* the reader goroutine reads frames in order and sends them on `readChan`;
  on EOF it closes the channel, on a read error it records the error via
  `setError` and closes without sending the failed frame;
* the processor goroutine receives one frame at a time, applies the
  worker-pool pixel transform to that single frame —
  `workerPool.processFrame` returns only after all of the frame's chunks
  are done, so at most one frame is ever inside the stage (`procHold`) —
  and forwards it on `processChan`;
* the writer (the invoking thread) receives frames in order and writes
  each; on a write error it records it and breaks out of its receive loop;
  afterwards it flushes (recording a flush error, if any), waits for both
  goroutines (`pipelineWg.Wait()`), and returns the recorded error.

The `frame.err != nil` branches in the processor and the writer are dead
code: the reader never sends a frame carrying a non-nil error.  The loop is
modelled as a small-step transition system over explicit FIFO queues with
ghost fields: `readLog` (frames successfully read, in order), `errLog`
(`setError` arguments, in call order) and `lost` (frames the writer
consumed but did not write on the write-error path). -/

/-- `pipelineDepth` (frame_processor.go 179), the channel capacity. -/
def pipelineDepth : ℕ := 3

/-- `setError` (frame_processor.go 187-193): records the error only when
none is recorded yet — first error wins. -/
def setError (pipelineErr : Option ℕ) (e : ℕ) : Option ℕ :=
  match pipelineErr with
  | none => some e
  | some e0 => some e0

/-- One item of the input stream: a frame (identified by its read index) or
a read failure. -/
inductive RItem : Type
  | frame (i : ℕ)
  | rerr (e : ℕ)

/-- The frames of an input stream, in order. -/
def framesOfItems : List RItem → List ℕ
  | [] => []
  | .frame i :: rest => i :: framesOfItems rest
  | .rerr _ :: rest => framesOfItems rest

/-- A pipeline state: the remaining input, the two channels, each stage's
stopped flag, the frame inside the processing stage, the written output,
the recorded error, and the ghost logs. -/
structure PState where
  toRead : List RItem
  readQ : List ℕ
  readerDone : Bool
  procHold : Option ℕ
  procQ : List ℕ
  procDone : Bool
  written : List ℕ
  writerDone : Bool
  flushDone : Bool
  pipelineErr : Option ℕ
  errLog : List ℕ
  readLog : List ℕ
  lost : List ℕ
  returned : Option (Option ℕ)

/-- The state in which `processFrameLoop` starts. -/
def initState (input : List RItem) : PState :=
  { toRead := input, readQ := [], readerDone := false, procHold := none, procQ := [],
    procDone := false, written := [], writerDone := false, flushDone := false,
    pipelineErr := none, errLog := [], readLog := [], lost := [], returned := none }

/-- One interleaving step of the pipeline. -/
inductive PStep : PState → PState → Prop where
  /-- Reader: `io.ReadFull` succeeds, the frame is sent on `readChan`
  (blocking unless the channel has room). -/
  | readFrame (s : PState) (i : ℕ) (rest : List RItem)
      (hdone : s.readerDone = false) (hto : s.toRead = .frame i :: rest)
      (hcap : s.readQ.length < pipelineDepth) :
      PStep s { s with toRead := rest, readQ := s.readQ ++ [i], readLog := s.readLog ++ [i] }
  /-- Reader: EOF — break out of the loop and close `readChan`. -/
  | readEOF (s : PState) (hdone : s.readerDone = false) (hto : s.toRead = []) :
      PStep s { s with readerDone := true }
  /-- Reader: a read error — record it, break, close `readChan`. -/
  | readFail (s : PState) (e : ℕ) (rest : List RItem)
      (hdone : s.readerDone = false) (hto : s.toRead = .rerr e :: rest) :
      PStep s { s with readerDone := true, pipelineErr := setError s.pipelineErr e, errLog := s.errLog ++ [e] }
  /-- Processor: receive the next frame from `readChan`. -/
  | procTake (s : PState) (i : ℕ) (rest : List ℕ)
      (hpd : s.procDone = false) (hhold : s.procHold = none)
      (hq : s.readQ = i :: rest) :
      PStep s { s with readQ := rest, procHold := some i }
  /-- Processor: the frame's chunks are all done; send it on `processChan`
  (blocking unless the channel has room). -/
  | procPut (s : PState) (i : ℕ)
      (hhold : s.procHold = some i) (hcap : s.procQ.length < pipelineDepth) :
      PStep s { s with procHold := none, procQ := s.procQ ++ [i] }
  /-- Processor: `readChan` is closed and drained — exit and close
  `processChan`. -/
  | procClose (s : PState)
      (hpd : s.procDone = false) (hrd : s.readerDone = true)
      (hq : s.readQ = []) (hhold : s.procHold = none) :
      PStep s { s with procDone := true }
  /-- Writer: receive a frame and write it successfully. -/
  | writeOk (s : PState) (i : ℕ) (rest : List ℕ)
      (hw : s.writerDone = false) (hq : s.procQ = i :: rest) :
      PStep s { s with procQ := rest, written := s.written ++ [i] }
  /-- Writer: the write fails — record the error and break (the frame is
  consumed but not written; nothing keeps draining `processChan`). -/
  | writeFail (s : PState) (i : ℕ) (rest : List ℕ) (e : ℕ)
      (hw : s.writerDone = false) (hq : s.procQ = i :: rest) :
      PStep s { s with procQ := rest, writerDone := true, lost := s.lost ++ [i], pipelineErr := setError s.pipelineErr e, errLog := s.errLog ++ [e] }
  /-- Writer: `processChan` is closed and drained — the receive loop ends. -/
  | writerFinish (s : PState)
      (hw : s.writerDone = false) (hpd : s.procDone = true) (hq : s.procQ = []) :
      PStep s { s with writerDone := true }
  /-- Writer: flush the buffered writer successfully. -/
  | flushOk (s : PState) (hw : s.writerDone = true) (hf : s.flushDone = false) :
      PStep s { s with flushDone := true }
  /-- Writer: the flush fails — record the error. -/
  | flushFail (s : PState) (e : ℕ) (hw : s.writerDone = true) (hf : s.flushDone = false) :
      PStep s { s with flushDone := true, pipelineErr := setError s.pipelineErr e, errLog := s.errLog ++ [e] }
  /-- `pipelineWg.Wait()` has returned — both goroutines have stopped, the
  writer has stopped and flushed — and the loop returns `pipelineErr`. -/
  | ret (s : PState)
      (hf : s.flushDone = true) (hrd : s.readerDone = true)
      (hpd : s.procDone = true) (hw : s.writerDone = true)
      (hnone : s.returned = none) :
      PStep s { s with returned := some s.pipelineErr }

/-- States reachable by `processFrameLoop` on a given input stream. -/
inductive Reachable (input : List RItem) : PState → Prop where
  | init : Reachable input (initState input)
  | step {s s' : PState} : Reachable input s → PStep s s' → Reachable input s'

lemma setError_head (el : List ℕ) (e : ℕ) :
    setError el.head? e = (el ++ [e]).head? := by
  cases el <;> rfl

lemma setError_ne_none (cur : Option ℕ) (e : ℕ) : setError cur e ≠ none := by
  cases cur <;> simp [setError]

/-- The pipeline invariant: conservation of frames through the stages (in
order), first-error-wins bookkeeping, and the stop/return protocol. -/
structure Inv (input : List RItem) (s : PState) : Prop where
  conserveInput : framesOfItems input = s.readLog ++ framesOfItems s.toRead
  conservePipe : s.readLog = s.written ++ s.lost ++ s.procQ ++ s.procHold.toList ++ s.readQ
  errHead : s.pipelineErr = s.errLog.head?
  lostNil : s.pipelineErr = none → s.lost = []
  lostWriter : s.writerDone = false → s.lost = []
  readAll : s.pipelineErr = none → s.readerDone = true → s.toRead = []
  holdNone : s.procDone = true → s.procHold = none
  procStop : s.procDone = true → s.readQ = [] ∧ s.readerDone = true
  writerStop : s.writerDone = true → s.pipelineErr ≠ none ∨ s.procDone = true
  procQNil : s.writerDone = true → s.pipelineErr = none → s.procQ = []
  retStop : s.returned ≠ none → s.readerDone = true ∧ s.procDone = true
      ∧ s.writerDone = true ∧ s.flushDone = true ∧ s.returned = some s.pipelineErr

lemma inv_init (input : List RItem) : Inv input (initState input) := by
  refine ⟨by simp [initState], rfl, rfl, fun _ => rfl, fun _ => rfl, ?_, ?_, ?_, ?_, ?_, ?_⟩
  · intro _ h
    simp [initState] at h
  · intro h
    simp [initState] at h
  · intro h
    simp [initState] at h
  · intro h
    simp [initState] at h
  · intro h _
    simp [initState] at h
  · intro h
    simp [initState] at h

lemma inv_step (input : List RItem) {s s' : PState}
    (hinv : Inv input s) (hstep : PStep s s') : Inv input s' := by
  obtain ⟨c1, c2, c3, c4, c5, c6, c7, c8, c9, c10, c11⟩ := hinv
  cases hstep with
  | readFrame i rest hdone hto hcap =>
    refine ⟨?_, ?_, c3, c4, c5, ?_, c7, ?_, c9, c10, ?_⟩
    · rw [c1, hto]
      simp [framesOfItems]
    · rw [c2]
      simp [List.append_assoc]
    · intro _ h2
      simp only [hdone] at h2
      exact absurd h2 (by simp)
    · intro h
      rcases c8 h with ⟨-, h2⟩
      rw [hdone] at h2
      exact absurd h2 (by simp)
    · intro h
      rcases c11 h with ⟨hr, -⟩
      rw [hdone] at hr
      exact absurd hr (by simp)
  | readEOF hdone hto =>
    refine ⟨c1, c2, c3, c4, c5, ?_, c7, ?_, c9, c10, ?_⟩
    · intro _ _
      exact hto
    · intro h
      exact ⟨(c8 h).1, rfl⟩
    · intro h
      rcases c11 h with ⟨-, hp, hw, hf, he⟩
      exact ⟨rfl, hp, hw, hf, he⟩
  | readFail e rest hdone hto =>
    refine ⟨c1, c2, ?_, ?_, c5, ?_, c7, ?_, ?_, ?_, ?_⟩
    · rw [c3]
      exact setError_head _ _
    · intro h
      exact absurd h (setError_ne_none _ _)
    · intro h
      exact absurd h (setError_ne_none _ _)
    · intro h
      exact ⟨(c8 h).1, rfl⟩
    · intro _
      exact Or.inl (setError_ne_none _ _)
    · intro _ he
      exact absurd he (setError_ne_none _ _)
    · intro h
      rcases c11 h with ⟨hr, -⟩
      rw [hdone] at hr
      exact absurd hr (by simp)
  | procTake i rest hpd hhold hq =>
    refine ⟨c1, ?_, c3, c4, c5, c6, ?_, ?_, c9, c10, ?_⟩
    · rw [c2, hq, hhold]
      simp [List.append_assoc]
    · intro h
      rw [hpd] at h
      exact absurd h (by simp)
    · intro h
      rw [hpd] at h
      exact absurd h (by simp)
    · intro h
      rcases c11 h with ⟨-, hp, -⟩
      rw [hpd] at hp
      exact absurd hp (by simp)
  | procPut i hhold hcap =>
    refine ⟨c1, ?_, c3, c4, c5, c6, ?_, c8, c9, ?_, ?_⟩
    · rw [c2, hhold]
      simp [List.append_assoc]
    · intro _
      rfl
    · intro hw he
      rcases c9 hw with hne | hpd
      · exact absurd he hne
      · exact absurd ((c7 hpd).symm.trans hhold) (by simp)
    · intro h
      rcases c11 h with ⟨-, hp, -⟩
      exact absurd ((c7 hp).symm.trans hhold) (by simp)
  | procClose hpd hrd hq hhold =>
    refine ⟨c1, c2, c3, c4, c5, c6, ?_, ?_, ?_, c10, ?_⟩
    · intro _
      exact hhold
    · intro _
      exact ⟨hq, hrd⟩
    · intro _
      exact Or.inr rfl
    · intro h
      rcases c11 h with ⟨hr, hp, hw, hf, he⟩
      exact ⟨hr, rfl, hw, hf, he⟩
  | writeOk i rest hw hq =>
    refine ⟨c1, ?_, c3, c4, c5, c6, c7, c8, c9, ?_, ?_⟩
    · rw [c2, hq, c5 hw]
      simp [List.append_assoc]
    · intro hwt _
      rw [hw] at hwt
      exact absurd hwt (by simp)
    · intro h
      rcases c11 h with ⟨-, -, hwt, -⟩
      rw [hw] at hwt
      exact absurd hwt (by simp)
  | writeFail i rest e hw hq =>
    refine ⟨c1, ?_, ?_, ?_, ?_, ?_, c7, c8, ?_, ?_, ?_⟩
    · rw [c2, hq]
      simp [List.append_assoc]
    · rw [c3]
      exact setError_head _ _
    · intro h
      exact absurd h (setError_ne_none _ _)
    · intro h
      exact absurd h (by simp)
    · intro h
      exact absurd h (setError_ne_none _ _)
    · intro _
      exact Or.inl (setError_ne_none _ _)
    · intro _ he
      exact absurd he (setError_ne_none _ _)
    · intro h
      rcases c11 h with ⟨-, -, hwt, -⟩
      rw [hw] at hwt
      exact absurd hwt (by simp)
  | writerFinish hw hpd hq =>
    refine ⟨c1, c2, c3, c4, ?_, c6, c7, c8, ?_, ?_, ?_⟩
    · intro h
      exact absurd h (by simp)
    · intro _
      exact Or.inr hpd
    · intro _ _
      exact hq
    · intro h
      rcases c11 h with ⟨-, -, hwt, -⟩
      rw [hw] at hwt
      exact absurd hwt (by simp)
  | flushOk hw hf =>
    refine ⟨c1, c2, c3, c4, c5, c6, c7, c8, c9, c10, ?_⟩
    intro h
    rcases c11 h with ⟨-, -, -, hft, -⟩
    rw [hf] at hft
    exact absurd hft (by simp)
  | flushFail e hw hf =>
    refine ⟨c1, c2, ?_, ?_, ?_, ?_, c7, c8, ?_, ?_, ?_⟩
    · rw [c3]
      exact setError_head _ _
    · intro h
      exact absurd h (setError_ne_none _ _)
    · intro h
      rw [hw] at h
      exact absurd h (by simp)
    · intro h
      exact absurd h (setError_ne_none _ _)
    · intro _
      exact Or.inl (setError_ne_none _ _)
    · intro _ he
      exact absurd he (setError_ne_none _ _)
    · intro h
      rcases c11 h with ⟨-, -, -, hft, -⟩
      rw [hf] at hft
      exact absurd hft (by simp)
  | ret hf hrd hpd hw hnone =>
    refine ⟨c1, c2, c3, c4, c5, c6, c7, c8, c9, c10, ?_⟩
    intro _
    exact ⟨hrd, hpd, hw, hf, rfl⟩

lemma reach_inv {input : List RItem} {s : PState} (h : Reachable input s) :
    Inv input s := by
  induction h with
  | init => exact inv_init input
  | step _ hstep ih => exact inv_step input ih hstep

/-- C3: in every reachable state of `processFrameLoop`, (a) the frames read
so far are exactly the written frames followed, in order, by the single
frame inside the processing stage and the channel contents — concurrency
acts within the one held frame, never across frames; (b) the written
sequence is a prefix of the read sequence (frame `i` is written before
frame `j` whenever `i` was read before `j`); and (c) a run that returns
without error has written exactly the full read sequence, which is the
whole input. -/
theorem processFrameLoop_order (input : List RItem) (s : PState)
    (h : Reachable input s) :
    s.readLog = s.written ++ (s.lost ++ s.procQ ++ s.procHold.toList ++ s.readQ)
  ∧ s.written <+: s.readLog
  ∧ (s.returned = some none →
      s.written = s.readLog ∧ s.readLog = framesOfItems input) := by
  obtain ⟨c1, c2, c3, c4, c5, c6, c7, c8, c9, c10, c11⟩ := reach_inv h
  refine ⟨by rw [c2]; simp [List.append_assoc], ?_, ?_⟩
  · exact ⟨s.lost ++ s.procQ ++ s.procHold.toList ++ s.readQ,
      by rw [c2]; simp [List.append_assoc]⟩
  · intro hret
    have hr : s.returned ≠ none := by simp [hret]
    obtain ⟨hrd, hpd, hwd, -, heq⟩ := c11 hr
    have herr : s.pipelineErr = none := (Option.some.inj (hret.symm.trans heq)).symm
    have hlost := c4 herr
    have hq := (c8 hpd).1
    have hhold := c7 hpd
    have hpq := c10 hwd herr
    constructor
    · rw [c2, hlost, hpq, hhold, hq]
      simp
    · rw [c1, c6 herr hrd]
      simp [framesOfItems]

/-- The clean one-frame run used as the C3 witness: read frame 0, process
it, write it, finish, flush, return `nil`. -/
def exFinal : PState :=
  { toRead := [], readQ := [], readerDone := true, procHold := none, procQ := [],
    procDone := true, written := [0], writerDone := true, flushDone := true,
    pipelineErr := none, errLog := [], readLog := [0], lost := [], returned := some none }

lemma exRun : Reachable [RItem.frame 0] exFinal := by
  have h0 : Reachable [RItem.frame 0] (initState [RItem.frame 0]) := .init
  have h1 := Reachable.step h0 (PStep.readFrame _ 0 [] rfl rfl (by simp [initState, pipelineDepth]))
  have h2 := Reachable.step h1 (PStep.readEOF _ rfl rfl)
  have h3 := Reachable.step h2 (PStep.procTake _ 0 [] rfl rfl rfl)
  have h4 := Reachable.step h3 (PStep.procPut _ 0 rfl (by simp [initState, pipelineDepth]))
  have h5 := Reachable.step h4 (PStep.procClose _ rfl rfl rfl rfl)
  have h6 := Reachable.step h5 (PStep.writeOk _ 0 [] rfl rfl)
  have h7 := Reachable.step h6 (PStep.writerFinish _ rfl rfl rfl)
  have h8 := Reachable.step h7 (PStep.flushOk _ rfl rfl)
  exact Reachable.step h8 (PStep.ret _ rfl rfl rfl rfl rfl)

/-- C3 witness: the clean one-frame run writes exactly the read sequence. -/
theorem processFrameLoop_order_witness :
    ([0] : List ℕ) <+: [0] ∧ ([0] : List ℕ) = framesOfItems [RItem.frame 0] :=
  ⟨(processFrameLoop_order [RItem.frame 0] exFinal exRun).2.1,
   ((processFrameLoop_order [RItem.frame 0] exFinal exRun).2.2 rfl).2⟩

/-- The run refuting the "written = read, in every execution" reading: both
frames are read, the write of frame 0 fails (error 5), the writer breaks
without draining, the stages stop and the loop returns the error — with
frame 1 still sitting unwritten in `processChan`. -/
def exWriteFailFinal : PState :=
  { toRead := [], readQ := [], readerDone := true, procHold := none, procQ := [1],
    procDone := true, written := [], writerDone := true, flushDone := true,
    pipelineErr := some 5, errLog := [5], readLog := [0, 1], lost := [0],
    returned := some (some 5) }

lemma exWriteFailRun : Reachable [RItem.frame 0, RItem.frame 1] exWriteFailFinal := by
  have h0 : Reachable [RItem.frame 0, RItem.frame 1]
      (initState [RItem.frame 0, RItem.frame 1]) := .init
  have h1 := Reachable.step h0
    (PStep.readFrame _ 0 [RItem.frame 1] rfl rfl (by simp [initState, pipelineDepth]))
  have h2 := Reachable.step h1 (PStep.readFrame _ 1 [] rfl rfl (by simp [initState, pipelineDepth]))
  have h3 := Reachable.step h2 (PStep.readEOF _ rfl rfl)
  have h4 := Reachable.step h3 (PStep.procTake _ 0 [1] rfl rfl rfl)
  have h5 := Reachable.step h4 (PStep.procPut _ 0 rfl (by simp [initState, pipelineDepth]))
  have h6 := Reachable.step h5 (PStep.procTake _ 1 [] rfl rfl rfl)
  have h7 := Reachable.step h6 (PStep.procPut _ 1 rfl (by simp [initState, pipelineDepth]))
  have h8 := Reachable.step h7 (PStep.procClose _ rfl rfl rfl rfl)
  have h9 := Reachable.step h8 (PStep.writeFail _ 0 [1] 5 rfl rfl)
  have h10 := Reachable.step h9 (PStep.flushOk _ rfl rfl)
  exact Reachable.step h10 (PStep.ret _ rfl rfl rfl rfl rfl)

/-- C3 counterexample: an execution of `processFrameLoop` (it even returns)
in which the written sequence is not the read sequence — the write of
frame 0 fails, so nothing is written although frames 0 and 1 were read.
"Written = read" holds only for executions that finish without error; the
order guarantee (written is a prefix of the read order) is what holds in
every execution. -/
theorem processFrameLoop_not_exact :
    Reachable [RItem.frame 0, RItem.frame 1] exWriteFailFinal
  ∧ exWriteFailFinal.returned = some (some 5)
  ∧ exWriteFailFinal.written ≠ exWriteFailFinal.readLog :=
  ⟨exWriteFailRun, rfl, by simp [exWriteFailFinal]⟩

/-- C4: `setError` is first-error-wins (once some error is recorded, a
later call leaves it unchanged); in every reachable state the recorded
error is the head of the log of all `setError` calls (the first error, or
`nil` when no stage erred); and whenever the loop has returned, all three
stages had stopped and the returned value is exactly that first error. -/
theorem processFrameLoop_error (input : List RItem) (s : PState)
    (h : Reachable input s) :
    (∀ e0 e, setError (some e0) e = some e0)
  ∧ s.pipelineErr = s.errLog.head?
  ∧ (∀ r, s.returned = some r →
      r = s.errLog.head? ∧ s.readerDone = true ∧ s.procDone = true
        ∧ s.writerDone = true) := by
  obtain ⟨c1, c2, c3, c4, c5, c6, c7, c8, c9, c10, c11⟩ := reach_inv h
  refine ⟨fun e0 e => rfl, c3, ?_⟩
  intro r hret
  have hr : s.returned ≠ none := by simp [hret]
  obtain ⟨hrd, hpd, hwd, -, heq⟩ := c11 hr
  have : r = s.pipelineErr := Option.some.inj (hret.symm.trans heq)
  exact ⟨this.trans c3, hrd, hpd, hwd⟩

/-- The failing run used as the C4 witness: the read of the first frame
fails with error 7; the stages drain and stop and the loop returns that
error. -/
def exFailFinal : PState :=
  { toRead := [RItem.rerr 7], readQ := [], readerDone := true, procHold := none,
    procQ := [], procDone := true, written := [], writerDone := true, flushDone := true,
    pipelineErr := some 7, errLog := [7], readLog := [], lost := [],
    returned := some (some 7) }

lemma exFailRun : Reachable [RItem.rerr 7] exFailFinal := by
  have h0 : Reachable [RItem.rerr 7] (initState [RItem.rerr 7]) := .init
  have h1 := Reachable.step h0 (PStep.readFail _ 7 [] rfl rfl)
  have h2 := Reachable.step h1 (PStep.procClose _ rfl rfl rfl rfl)
  have h3 := Reachable.step h2 (PStep.writerFinish _ rfl rfl rfl)
  have h4 := Reachable.step h3 (PStep.flushOk _ rfl rfl)
  exact Reachable.step h4 (PStep.ret _ rfl rfl rfl rfl rfl)

/-- C4 witness: first-error-wins at concrete errors, and the failing run
returns exactly its first recorded error. -/
theorem processFrameLoop_error_witness :
    setError (some 3) 9 = some 3 ∧ (some 7 : Option ℕ) = ([7] : List ℕ).head? :=
  ⟨(processFrameLoop_error [RItem.rerr 7] exFailFinal exFailRun).1 3 9,
   ((processFrameLoop_error [RItem.rerr 7] exFailFinal exFailRun).2.2 (some 7) rfl).1⟩

end MovieGo
